import Mathlib

/-!
Verification of `src/client/resources/web/js/message_parsing.mjs`
(Minecraft JSON chat-message parsing and rendering).

JavaScript strings are modelled as `List Char` (one entry per code point),
DOM `Text`/`Element` values as the inductive `OutNode`, and the ambient
`translations` table as an explicit function parameter `Tbl`.
Regular-expression scans are implemented as character-level scanners that
reproduce the behaviour of the source regexes on the modelled alphabet.
-/

/-- JavaScript strings, modelled as lists of characters. -/
abbrev Str := List Char

/-- The `translations` table imported by the module, modelled as a partial map
from keys to templates (`undefined` lookup = `none`). -/
abbrev Tbl := Str → Option Str

/-- `MAX_CHAT_LENGTH` from the source. -/
def MAX_CHAT_LENGTH : Nat := 4096

/-- `MAX_CHAT_DEPTH` from the source. -/
def MAX_CHAT_DEPTH : Nat := 8

/-- `VALID_COLORS` from the source: Minecraft's named color palette. -/
def VALID_COLORS : List Str :=
  ["black".toList, "dark_blue".toList, "dark_green".toList, "dark_aqua".toList,
   "dark_red".toList, "dark_purple".toList, "gold".toList, "gray".toList,
   "dark_gray".toList, "blue".toList, "green".toList, "aqua".toList,
   "red".toList, "light_purple".toList, "yellow".toList, "white".toList,
   "reset".toList]

/-- ASCII lower-casing of a single character (`Char.toLower` shifts exactly
the letters `A`-`Z` by 32), modelling `String.prototype.toLowerCase` on the
characters relevant to this module. -/
def toLowerCh (c : Char) : Char :=
  Char.toLower c

/-- The character class `[0-9a-fA-F]` of the hex-color regex:
digits `0`-`9`, letters `a`-`f` and letters `A`-`F`, by code point. -/
def isHexDigitCh (c : Char) : Bool :=
  (48 ≤ c.toNat && c.toNat ≤ 57) || (97 ≤ c.toNat && c.toNat ≤ 102) ||
    (65 ≤ c.toNat && c.toNat ≤ 70)

/-- The test `/^#[0-9a-fA-F]\x7b6\x7d$/.test s`: a `#` followed by exactly six
hex digits. -/
def isHexColorStr (s : Str) : Bool :=
  match s with
  | [] => false
  | c0 :: rest => decide (c0 = '#') && decide (rest.length = 6)
      && rest.all isHexDigitCh

/-- `isValidColor` from the source: empty strings are invalid; otherwise the
string is lower-cased and matched against the named palette, falling back to
the 6-hex-digit pattern. -/
def isValidColor (color : Str) : Bool :=
  match color with
  | [] => false
  | _ =>
    let lc := color.map toLowerCh
    if VALID_COLORS.contains lc then true else isHexColorStr lc

/-- The color contract stated by the spec: a case-insensitive match against the
17-entry named palette, or `#` followed by exactly six hexadecimal digits
(case-insensitive); empty input invalid.  Stated from the spec's words for
comparison with `isValidColor`. -/
def isValidColorSpec (s : Str) : Bool :=
  match s with
  | [] => false
  | c0 :: rest =>
    (VALID_COLORS.any fun p => (c0 :: rest).map toLowerCh = p) ||
      (decide (c0 = '#') && decide (rest.length = 6)
        && rest.all isHexDigitCh)

/-- Attributes carried by a rendered DOM element. -/
structure Attrs where
  classes : List Str
  styleColor : Option Str
  title : Option Str
  href : Option Str
  rel : Option Str
  target : Option Str
deriving Repr, DecidableEq

/-- A rendered DOM node: a `Text` node or an `Element` with children. -/
inductive OutNode where
  | text (s : Str)
  | elem (tag : Str) (attrs : Attrs) (children : List OutNode)
deriving Repr

def spanTag : Str := "span".toList
def aTag : Str := "a".toList

mutual
/-- `Node.textContent`: the concatenation of all descendant text. -/
def textContent : OutNode → Str
  | .text s => s
  | .elem _ _ cs => textContentList cs

def textContentList : List OutNode → Str
  | [] => []
  | n :: rest => textContent n ++ textContentList rest
end

/-- The assignment `node.textContent = s`: on an element it replaces all
children with a single text node; on a text node it replaces the data. -/
def setTextContent : OutNode → Str → OutNode
  | .text _, s => .text s
  | .elem t a _, s => .elem t a [.text s]

/-- The truncation step at the end of `formatComponent`: if the assembled text
content exceeds `MAX_CHAT_LENGTH`, the whole content is replaced by its first
`MAX_CHAT_LENGTH` characters. -/
def truncNode (n : OutNode) : OutNode :=
  if MAX_CHAT_LENGTH < (textContent n).length then
    setTextContent n ((textContent n).take MAX_CHAT_LENGTH)
  else n

/-- The JavaScript regex class `\s` (whitespace). -/
def isWSChar (c : Char) : Bool :=
  c ∈ [' ', '\t', '\n', '\u000b', '\u000c', '\r', ' ', ' ',
       ' ', ' ', ' ', ' ', ' ', ' ', ' ',
       ' ', ' ', ' ', ' ', ' ', ' ', ' ',
       ' ', '　', '﻿']

def httpScheme : Str := "http://".toList
def httpsScheme : Str := "https://".toList

/-- A URL match of `/(https?:\/\/[^\s]+)/` anchored at the start of `s`:
returns the matched URL and the remainder of the string. The scheme must be
followed by at least one non-whitespace character; the URL extends to the next
whitespace character. -/
def matchUrlAt (s : Str) : Option (Str × Str) :=
  if httpsScheme.isPrefixOf s then
    match (s.drop httpsScheme.length).takeWhile (fun c => !isWSChar c) with
    | [] => none
    | b :: bs =>
      some (httpsScheme ++ b :: bs,
            (s.drop httpsScheme.length).dropWhile (fun c => !isWSChar c))
  else if httpScheme.isPrefixOf s then
    match (s.drop httpScheme.length).takeWhile (fun c => !isWSChar c) with
    | [] => none
    | b :: bs =>
      some (httpScheme ++ b :: bs,
            (s.drop httpScheme.length).dropWhile (fun c => !isWSChar c))
  else none

/-- Splits `s` into the literal text before the first URL match and, if a match
exists, the matched URL and the remainder (mirroring one `regex.exec` step of
`linkifyText`, which tries each start position from left to right). -/
def linkChunk : Str → Str × Option (Str × Str)
  | [] => ([], none)
  | c :: rest =>
    match matchUrlAt (c :: rest) with
    | some (url, rest') => ([], some (url, rest'))
    | none =>
      let p := linkChunk rest
      (c :: p.1, p.2)

/-- The `<a>` element built for a matched URL in `linkifyText`. -/
def aNode (url : Str) : OutNode :=
  .elem aTag ⟨[], none, none, some url, some "noopener noreferrer".toList,
              some "_blank".toList⟩ [.text url]

/-- `[.text l]` for a non-empty literal `l`, `[]` otherwise (the source only
pushes a text node when the slice is non-empty). -/
def textPieces (l : Str) : List OutNode :=
  match l with
  | [] => []
  | _ => [.text l]

/-- The scanning loop of `linkifyText`; `fuel` is an upper bound on the number
of scan steps (each step consumes at least one character, so
`s.length + 1` is always sufficient and the `0` case is unreachable). -/
def linkGo : Nat → Str → List OutNode
  | 0, _ => []
  | fuel + 1, s =>
    match linkChunk s with
    | (lit, none) => textPieces lit
    | (lit, some (url, rest)) => textPieces lit ++ aNode url :: linkGo fuel rest

/-- `linkifyText` from the source: splits a string into plain text nodes and
`<a>` elements for each match of `/(https?:\/\/[^\s]+)/g`. -/
def linkifyText (s : Str) : List OutNode :=
  linkGo (s.length + 1) s

/-- A substitution argument as it reaches the placeholder handlers: a plain
string or an already-rendered component.  (The source calls
`formatComponent(value)` at the point of substitution; rendering is pure, so
pre-rendering each component argument yields the same nodes.) -/
abbrev RArg := Sum Str OutNode

/-- JavaScript truthiness of a substitution argument: the empty string is
falsy; a component object is always truthy. -/
def argTruthy : RArg → Bool
  | .inl s => !s.isEmpty
  | .inr _ => true

/-- `document.createTextNode(value)` for a string argument, or the rendered
component element. -/
def renderRArg : RArg → OutNode
  | .inl s => .text s
  | .inr n => n

def percentS : Str := "%s".toList
def dollarS : Str := "$s".toList

/-- Whether `needle` occurs as a contiguous substring of `hay`
(`String.prototype.includes`). -/
def hasSub (needle : Str) : Str → Bool
  | [] => needle.isEmpty
  | c :: rest => needle.isPrefixOf (c :: rest) || hasSub needle rest

/-- `parseInt` on a non-empty run of decimal digits. -/
def digitsToNat (ds : Str) : Nat :=
  ds.foldl (fun a c => a * 10 + (c.toNat - 48)) 0

/-- A match of `/%(\d+)\$s/` anchored at the start of `s`: returns the parsed
1-based index, the literal matched token, and the remainder. -/
def matchNumTok (s : Str) : Option (Nat × Str × Str) :=
  match s with
  | '%' :: t =>
    match t.takeWhile Char.isDigit with
    | [] => none
    | d :: ds =>
      match t.drop (d :: ds).length with
      | '$' :: 's' :: rest =>
        some (digitsToNat (d :: ds), '%' :: (d :: ds) ++ ['$', 's'], rest)
      | _ => none
  | _ => none

/-- Splits `s` into the literal text before the first `%N$s` token and, if a
token exists, its parsed index, its literal text and the remainder. -/
def numChunk : Str → Str × Option (Nat × Str × Str)
  | [] => ([], none)
  | c :: rest =>
    match matchNumTok (c :: rest) with
    | some (n, tok, rest') => ([], some (n, tok, rest'))
    | none =>
      let p := numChunk rest
      (c :: p.1, p.2)

/-- The node emitted for a numbered token `%N$s`: argument `N` (1-based) if it
exists and is truthy, else the literal token text (with a logged warning). -/
def numTokenNode (args : List RArg) (n : Nat) (tok : Str) : OutNode :=
  match n with
  | 0 => .text tok
  | m + 1 =>
    match args.get? m with
    | none => .text tok
    | some a => if argTruthy a then renderRArg a else .text tok

/-- The scanning loop of `numberedSubstitution`; each step consumes at least
the 4-character token, so `s.length + 1` fuel is always sufficient. -/
def numGo : Nat → Str → List RArg → List OutNode
  | 0, _, _ => []
  | fuel + 1, s, args =>
    match numChunk s with
    | (lit, none) => textPieces lit
    | (lit, some (n, tok, rest)) =>
      textPieces lit ++ numTokenNode args n tok :: numGo fuel rest args

/-- `numberedSubstitution` from the source: replaces `%N$s` tokens by the
1-based-indexed argument, emitting the literal token when the argument is
missing or falsy. -/
def numberedSubstitution (template : Str) (args : List RArg) : List OutNode :=
  numGo (template.length + 1) template args

/-- Splits `s` into the literal text before the first `%s` token and the
remainder after it, if any. -/
def seqChunk : Str → Str × Option Str
  | [] => ([], none)
  | '%' :: 's' :: rest => ([], some rest)
  | c :: rest =>
    let p := seqChunk rest
    (c :: p.1, p.2)

/-- The node emitted for a sequential `%s` token consuming argument `i`. -/
def seqTokenNode (args : List RArg) (i : Nat) : OutNode :=
  match args.get? i with
  | none => .text percentS
  | some a => if argTruthy a then renderRArg a else .text percentS

/-- The scanning loop of `simpleSubstitution`; arguments are consumed left to
right.  Each step consumes the 2-character token, so `s.length + 1` fuel is
always sufficient. -/
def seqGo : Nat → Str → List RArg → Nat → List OutNode
  | 0, _, _, _ => []
  | fuel + 1, s, args, i =>
    match seqChunk s with
    | (lit, none) => textPieces lit
    | (lit, some rest) =>
      textPieces lit ++ seqTokenNode args i :: seqGo fuel rest args (i + 1)

/-- `simpleSubstitution` from the source: replaces `%s` tokens by the
arguments in order, emitting the literal `%s` when the argument is exhausted
or falsy. -/
def simpleSubstitution (template : Str) (args : List RArg) : List OutNode :=
  seqGo (template.length + 1) template args 0

/-- `formatTranslation` from the source: handles a missing key, the literal
placeholder key `"%s"`, a missing (or empty) template, and otherwise
dispatches on `template.includes on the two-character substring` to numbered
or sequential substitution. -/
def formatTranslation (tbl : Tbl) (key : Str) (args : List RArg) :
    List OutNode :=
  match key with
  | [] => [.text key]
  | _ =>
    if key = percentS then
      match args with
      | [] => [.text key]
      | _ => args.map renderRArg
    else
      match tbl key with
      | none => [.text key]
      | some [] => [.text key]
      | some (t0 :: trest) =>
        if hasSub dollarS (t0 :: trest) then
          numberedSubstitution (t0 :: trest) args
        else
          simpleSubstitution (t0 :: trest) args

/-- The structured contents of a `show_item` hover event. -/
structure ItemContents where
  id : Str
  count : Option Int
  tag : Option Str
deriving Repr, DecidableEq

/-- The structured contents of a `show_entity` hover event
(only `name` is consulted by the formatter; `type` and `id` are validated). -/
structure EntityContents where
  etype : Str
  name : Option Str
deriving Repr, DecidableEq

mutual
/-- A validated chat `Component`.  `extra` and `with` behave identically when
absent and when present as an empty array, so both are modelled as plain
lists; the boolean style fields distinguish absent (`none`) from present. -/
inductive Component where
  | mk (text : Option Str) (translate : Option Str)
       (wargs : List CompArg) (extra : List CompArg)
       (color : Option Str)
       (bold italic underlined strikethrough obfuscated : Option Bool)
       (hover : Option HoverEv)

/-- An entry of `extra`, `with`, or a `show_text` contents array:
a string or a nested component. -/
inductive CompArg where
  | str (s : Str)
  | comp (c : Component)

/-- A validated hover event. -/
inductive HoverEv where
  | showText (contents value : Option STC)
  | showItem (contents : Option ItemContents) (value : Option Str)
  | showEntity (contents : Option EntityContents) (value : Option Str)

/-- `show_text` contents: a string, a component, or an array of either. -/
inductive STC where
  | str (s : Str)
  | comp (c : Component)
  | arr (items : List CompArg)
end

def Component.text : Component → Option Str
  | .mk t _ _ _ _ _ _ _ _ _ _ => t

def Component.translate : Component → Option Str
  | .mk _ tr _ _ _ _ _ _ _ _ _ => tr

def Component.wargs : Component → List CompArg
  | .mk _ _ w _ _ _ _ _ _ _ _ => w

def Component.extra : Component → List CompArg
  | .mk _ _ _ e _ _ _ _ _ _ _ => e

def Component.color : Component → Option Str
  | .mk _ _ _ _ c _ _ _ _ _ _ => c

def Component.hover : Component → Option HoverEv
  | .mk _ _ _ _ _ _ _ _ _ _ h => h

/-- Replaces the `color` field of a component. -/
def Component.setColor : Component → Option Str → Component
  | .mk t tr w e _ b i u st ob h, c => .mk t tr w e c b i u st ob h

/-- The CSS classes contributed by the `color` field: for a truthy, valid,
non-hex color the class `mc-` followed by the color with underscores replaced
by dashes; otherwise none (an invalid color is only logged). -/
def colorClasses (color : Option Str) : List Str :=
  match color with
  | none => []
  | some [] => []
  | some (c0 :: cr) =>
    if isValidColor (c0 :: cr) then
      if c0 = '#' then []
      else ["mc-".toList ++ (c0 :: cr).map (fun c => if c = '_' then '-' else c)]
    else []

/-- The inline style color contributed by the `color` field: set only for a
truthy, valid color starting with `#`. -/
def hexStyleColor (color : Option Str) : Option Str :=
  match color with
  | none => none
  | some [] => none
  | some (c0 :: cr) =>
    if isValidColor (c0 :: cr) then
      if c0 = '#' then some (c0 :: cr) else none
    else none

/-- The CSS classes contributed by the boolean style fields, in source order.
A field contributes exactly when it is present and `true`. -/
def boolClasses (b i u st ob : Option Bool) : List Str :=
  (if b = some true then ["mc-bold".toList] else []) ++
  (if i = some true then ["mc-italic".toList] else []) ++
  (if u = some true then ["mc-underlined".toList] else []) ++
  (if st = some true then ["mc-strikethrough".toList] else []) ++
  (if ob = some true then ["mc-obfuscated".toList] else [])

mutual
/-- The body of `formatComponent` before the final truncation step: the
`<span>` element with its color/style classes, hover title, and children
(content nodes followed by rendered `extra` entries). -/
def assembleComponent (tbl : Tbl) (c : Component) : OutNode :=
  match c with
  | .mk text translate wargs extra color b i u st ob hover =>
    OutNode.elem spanTag
      ⟨colorClasses color ++ boolClasses b i u st ob,
       hexStyleColor color,
       (match hover with
        | some h => some (formatHoverEvent tbl h)
        | none => none),
       none, none, none⟩
      (contentChildren tbl (.mk text translate wargs extra color b i u st ob hover)
        ++ renderExtra tbl extra)
termination_by (sizeOf c, 1)

/-- The content children of a component: if `text` is truthy it is linkified;
else if `translate` is truthy it is resolved through `formatTranslation` with
the rendered `with` arguments; else there are none. -/
def contentChildren (tbl : Tbl) (c : Component) : List OutNode :=
  match c with
  | .mk text translate wargs _ _ _ _ _ _ _ _ =>
    match text with
    | some (t0 :: tr) => linkifyText (t0 :: tr)
    | _ =>
      match translate with
      | some (k0 :: kr) =>
        formatTranslation tbl (k0 :: kr) (renderWithArgs tbl wargs)
      | _ => []
termination_by (sizeOf c, 0)

/-- Renders the `with` arguments for substitution: strings stay strings,
components are rendered by `formatComponent` (inlined as
`truncNode (assembleComponent tbl cc)`). -/
def renderWithArgs (tbl : Tbl) (l : List CompArg) : List RArg :=
  match l with
  | [] => []
  | .str s :: rest => .inl s :: renderWithArgs tbl rest
  | .comp cc :: rest =>
    .inr (truncNode (assembleComponent tbl cc)) :: renderWithArgs tbl rest
termination_by (sizeOf l, 0)

/-- Renders the `extra` entries: strings become text nodes, components are
rendered recursively by `formatComponent`. -/
def renderExtra (tbl : Tbl) (l : List CompArg) : List OutNode :=
  match l with
  | [] => []
  | .str s :: rest => .text s :: renderExtra tbl rest
  | .comp cc :: rest =>
    truncNode (assembleComponent tbl cc) :: renderExtra tbl rest
termination_by (sizeOf l, 0)

/-- `formatComponentPlainText` from the source: the plain-text rendering used
for hover tooltips. -/
def formatComponentPlainText (tbl : Tbl) (c : Component) : Str :=
  match c with
  | .mk text translate wargs extra _ _ _ _ _ _ _ =>
    (match text with
     | some (t0 :: tr) => t0 :: tr
     | _ =>
       match translate with
       | some (k0 :: kr) =>
         textContentList
           (formatTranslation tbl (k0 :: kr) (renderWithArgs tbl wargs))
       | _ => []) ++ plainArgs tbl extra
termination_by (sizeOf c, 0)

/-- The plain-text rendering of a list of string-or-component entries
(used for `extra` and for `show_text` contents arrays). -/
def plainArgs (tbl : Tbl) (l : List CompArg) : Str :=
  match l with
  | [] => []
  | .str s :: rest => s ++ plainArgs tbl rest
  | .comp cc :: rest => formatComponentPlainText tbl cc ++ plainArgs tbl rest
termination_by (sizeOf l, 0)

/-- `formatHoverEvent` from the source: formats a hover event into the string
assigned to the element `title`. -/
def formatHoverEvent (tbl : Tbl) (h : HoverEv) : Str :=
  match h with
  | .showText contents value =>
    (match contents with
     | some stc => showTextStr tbl stc
     | none =>
       match value with
       | some stc => showTextStr tbl stc
       | none => [])
  | .showItem contents _ =>
    (match contents with
     | none => []
     | some ic =>
       match ic.count with
       | some n =>
         if n = 0 then ic.id
         else (toString n).toList ++ "x ".toList ++ ic.id
       | none => ic.id)
  | .showEntity contents _ =>
    match contents with
    | none => []
    | some ec =>
      match ec.name with
      | some (n0 :: nr) => n0 :: nr
      | _ => "Unnamed Entity".toList
termination_by (sizeOf h, 0)

/-- The `show_text` contents dispatch inside `formatHoverEvent`. -/
def showTextStr (tbl : Tbl) (stc : STC) : Str :=
  match stc with
  | .str s => s
  | .comp cc => formatComponentPlainText tbl cc
  | .arr items => plainArgs tbl items
termination_by (sizeOf stc, 0)
end

/-- `formatComponent` from the source: the assembled `<span>` with the final
length truncation applied. -/
def formatComponent (tbl : Tbl) (c : Component) : OutNode :=
  truncNode (assembleComponent tbl c)

/-- An untyped JSON value, the input of the validator. -/
inductive JValue where
  | null
  | bool (b : Bool)
  | num (n : Int)
  | str (s : Str)
  | arr (elems : List JValue)
  | obj (fields : List (Str × JValue))
deriving Repr

/-- `ComponentError` from the source: a message and the path at which
validation failed. -/
structure CErr where
  message : Str
  path : List Str
deriving Repr, DecidableEq

/-- Property lookup on a JSON object (`key in obj` / `obj[key]`). -/
def jGet (fields : List (Str × JValue)) (k : Str) : Option JValue :=
  match fields with
  | [] => none
  | (k', v) :: rest => if k' = k then some v else jGet rest k

/-- `typeof v === 'string'`. -/
def isStrJ : JValue → Bool
  | .str _ => true
  | _ => false

/-- `typeof v === 'boolean'`. -/
def isBoolJ : JValue → Bool
  | .bool _ => true
  | _ => false

/-- `typeof v === 'number'`. -/
def isNumJ : JValue → Bool
  | .num _ => true
  | _ => false

/-- One optional typed-field check: absent is fine; present with the wrong
type fails with `msg` at `path ++ [k]`. -/
def checkTypedField (fields : List (Str × JValue)) (k : Str)
    (ok : JValue → Bool) (msg : Str) (path : List Str) :
    Except CErr Unit :=
  match jGet fields k with
  | none => .ok ()
  | some v => if ok v then .ok () else .error ⟨msg, path ++ [k]⟩

/-- `Nat.repr`, as the path segment for an array index. -/
def natStr (n : Nat) : Str := (Nat.repr n).toList

/-- The `forEach` loops over `extra`, `with` and `show_text` contents arrays:
string entries are skipped, all others are validated by `check` at path
`path ++ [field, index]`. -/
def checkEntries (check : JValue → List Str → Except CErr Unit) :
    List JValue → List Str → Str → Nat → Except CErr Unit
  | [], _, _, _ => .ok ()
  | v :: rest, path, field, i =>
    match v with
    | .str _ => checkEntries check rest path field (i + 1)
    | _ => do
      check v (path ++ [field, natStr i])
      checkEntries check rest path field (i + 1)

def msgDepth : Str := "Maximum chat depth exceeded".toList
def msgNotObject : Str := "Component is not an object".toList
def msgNoContent : Str :=
  "Component does not have a text, translate, or extra property".toList
def msgHoverNoCV : Str :=
  "HoverEvent does not have a contents or value property".toList

/-- `assertIsShowTextHoverEvent`: requires `contents` or `value`; the chosen
field (preferring a present `contents`) may be a string, an array of strings
and components, or a single component. -/
def assertIsShowTextHoverEvent (check : JValue → List Str → Except CErr Unit)
    (fields : List (Str × JValue)) (path : List Str) : Except CErr Unit :=
  let dispatch : JValue → Except CErr Unit := fun contents =>
    match contents with
    | .str _ => .ok ()
    | .arr items => checkEntries check items path "contents".toList 0
    | other => check other (path ++ ["contents".toList])
  match jGet fields "contents".toList with
  | some contents => dispatch contents
  | none =>
    match jGet fields "value".toList with
    | some contents => dispatch contents
    | none => .error ⟨msgHoverNoCV, path⟩

/-- `assertIsShowItemHoverEvent`: a present `value` must be a string (then no
further checks); otherwise `contents` must be an object with a string `id`,
an optional numeric `count` and an optional string `tag`. -/
def assertIsShowItemHoverEvent (fields : List (Str × JValue))
    (path : List Str) : Except CErr Unit :=
  if (jGet fields "contents".toList).isNone
      && (jGet fields "value".toList).isNone then
    .error ⟨msgHoverNoCV, path⟩
  else
    match jGet fields "value".toList with
    | some v =>
      if isStrJ v then .ok ()
      else .error ⟨"HoverEvent.value is not a string".toList,
                   path ++ ["value".toList]⟩
    | none =>
      match jGet fields "contents".toList with
      | none => .error ⟨msgHoverNoCV, path⟩
      | some (.obj cf) => do
        (match jGet cf "id".toList with
         | none =>
           Except.error ⟨"HoverEvent.contents.id is not present".toList,
                         path ++ ["contents".toList, "id".toList]⟩
         | some idv =>
           if isStrJ idv then .ok ()
           else .error ⟨"HoverEvent.contents.id is not a string".toList,
                        path ++ ["contents".toList, "id".toList]⟩)
        checkTypedField cf "count".toList isNumJ
          "HoverEvent.contents.count is not a number".toList
          (path ++ ["contents".toList])
        checkTypedField cf "tag".toList isStrJ
          "HoverEvent.contents.tag is not a string".toList
          (path ++ ["contents".toList])
      | some (.arr _) =>
        .error ⟨"HoverEvent.contents.id is not present".toList,
                path ++ ["contents".toList, "id".toList]⟩
      | some _ =>
        .error ⟨"HoverEvent.contents is not an object".toList,
                path ++ ["contents".toList]⟩

/-- `assertIsShowEntityHoverEvent`: a present `value` must be a string;
otherwise `contents` must be an object with a string `type`, a present `id`
(of any type) and an optional string `name`. -/
def assertIsShowEntityHoverEvent (fields : List (Str × JValue))
    (path : List Str) : Except CErr Unit :=
  if (jGet fields "contents".toList).isNone
      && (jGet fields "value".toList).isNone then
    .error ⟨msgHoverNoCV, path⟩
  else
    match jGet fields "value".toList with
    | some v =>
      if isStrJ v then .ok ()
      else .error ⟨"HoverEvent.value is not a string".toList,
                   path ++ ["value".toList]⟩
    | none =>
      match jGet fields "contents".toList with
      | none => .error ⟨msgHoverNoCV, path⟩
      | some (.obj cf) => do
        (match jGet cf "type".toList with
         | none =>
           Except.error ⟨"HoverEvent.contents.type is not present".toList,
                         path ++ ["contents".toList, "type".toList]⟩
         | some tv =>
           if isStrJ tv then .ok ()
           else .error ⟨"HoverEvent.contents.type is not a string".toList,
                        path ++ ["contents".toList, "type".toList]⟩)
        (match jGet cf "id".toList with
         | none =>
           Except.error ⟨"HoverEvent.contents.id is not present".toList,
                         path ++ ["contents".toList, "id".toList]⟩
         | some _ => .ok ())
        checkTypedField cf "name".toList isStrJ
          "HoverEvent.contents.name is not a string".toList
          (path ++ ["contents".toList])
      | some (.arr _) =>
        .error ⟨"HoverEvent.contents.type is not present".toList,
                path ++ ["contents".toList, "type".toList]⟩
      | some _ =>
        .error ⟨"HoverEvent.contents is not an object".toList,
                path ++ ["contents".toList]⟩

/-- `assertIsHoverEvent`: requires an object with a string `action` naming one
of the three supported hover events, then dispatches.  A JSON array passes the
`typeof` object test but has no `action` property. -/
def assertIsHoverEvent (check : JValue → List Str → Except CErr Unit)
    (hv : JValue) (path : List Str) : Except CErr Unit :=
  match hv with
  | .obj fields =>
    (match jGet fields "action".toList with
     | none => .error ⟨"HoverEvent.action is not present".toList, path⟩
     | some (.str a) =>
       if a = "show_text".toList then
         assertIsShowTextHoverEvent check fields path
       else if a = "show_item".toList then
         assertIsShowItemHoverEvent fields path
       else if a = "show_entity".toList then
         assertIsShowEntityHoverEvent fields path
       else
         .error ⟨"HoverEvent.action is not a valid hover event: ".toList ++ a,
                 path ++ ["action".toList]⟩
     | some _ =>
       .error ⟨"HoverEvent.action is not a string".toList,
               path ++ ["action".toList]⟩)
  | .arr _ => .error ⟨"HoverEvent.action is not present".toList, path⟩
  | _ => .error ⟨"HoverEvent is not an object".toList, path⟩

/-- `assertIsComponent` from the source, with explicit recursion fuel.  The
depth check precedes everything, so calls at paths longer than
`MAX_CHAT_DEPTH` never recurse; each recursive call extends the path by at
least two segments, so any fuel of at least 5 makes the `0` case unreachable
from an empty starting path. -/
def assertFuel : Nat → JValue → List Str → Except CErr Unit :=
  fun fuel comp path =>
  if path.length > MAX_CHAT_DEPTH then .error ⟨msgDepth, path⟩
  else
    match fuel with
    | 0 => .error ⟨"validator fuel exhausted".toList, path⟩
    | fuel' + 1 =>
      match comp with
      | .obj fields => do
        if (jGet fields "text".toList).isNone
            && (jGet fields "translate".toList).isNone
            && (jGet fields "extra".toList).isNone then
          throw ⟨msgNoContent, path⟩
        checkTypedField fields "text".toList isStrJ
          "Component.text is not a string".toList path
        checkTypedField fields "translate".toList isStrJ
          "Component.translate is not a string".toList path
        checkTypedField fields "color".toList isStrJ
          "Component.color is not a string".toList path
        checkTypedField fields "bold".toList isBoolJ
          "Component.bold is not a boolean".toList path
        checkTypedField fields "italic".toList isBoolJ
          "Component.italic is not a boolean".toList path
        checkTypedField fields "underlined".toList isBoolJ
          "Component.underlined is not a boolean".toList path
        checkTypedField fields "strikethrough".toList isBoolJ
          "Component.strikethrough is not a boolean".toList path
        checkTypedField fields "obfuscated".toList isBoolJ
          "Component.obfuscated is not a boolean".toList path
        (match jGet fields "extra".toList with
         | none => Except.ok ()
         | some (.arr items) =>
           checkEntries (assertFuel fuel') items path "extra".toList 0
         | some _ =>
           .error ⟨"Component.extra is not an array".toList,
                   path ++ ["extra".toList]⟩)
        (match jGet fields "with".toList with
         | none => Except.ok ()
         | some (.arr items) =>
           checkEntries (assertFuel fuel') items path "with".toList 0
         | some _ =>
           .error ⟨"Component.with is not an array".toList,
                   path ++ ["with".toList]⟩)
        match jGet fields "hoverEvent".toList with
        | none => Except.ok ()
        | some hv =>
          assertIsHoverEvent (assertFuel fuel') hv
            (path ++ ["hoverEvent".toList])
      | .arr _ => .error ⟨msgNoContent, path⟩
      | _ => .error ⟨msgNotObject, path⟩

/-- `assertIsComponent` at the default empty path.  Fuel 8 is more than any
input can consume (see `assertFuel`). -/
def assertIsComponent (v : JValue) (path : List Str) : Except CErr Unit :=
  assertFuel 8 v path

/-- The children of an element node (`[]` for a text node). -/
def OutNode.childrenOf : OutNode → List OutNode
  | .text _ => []
  | .elem _ _ cs => cs

/-- Whether a string contains a `%N$s` numbered token anywhere.  Stated from
the spec's words (the spec dispatches on the presence of `%N$s` tokens) for
comparison with the source's dispatch on the substring `$s`. -/
def hasNumberedToken : Str → Bool
  | [] => false
  | c :: rest => (matchNumTok (c :: rest)).isSome || hasNumberedToken rest

/-- The empty translation table. -/
def tblEmpty : Tbl := fun _ => none

/-- A table mapping `greet` to the plain template `T`. -/
def tblGreet : Tbl :=
  fun k => if k = "greet".toList then some "T".toList else none

/-- A table mapping `kd` to the template `a$s %s`, which contains the
substring `$s` but no `%N$s` token. -/
def tblDollar : Tbl :=
  fun k => if k = "kd".toList then some "a$s %s".toList else none

/-- A component whose `text` field is present but empty and whose `translate`
field names the `greet` key. -/
def cTextEmpty : Component :=
  .mk (some []) (some "greet".toList) [] [] none none none none none none none

/-- `cTextEmpty` with the `translate` field removed. -/
def cTextEmptyNoTr : Component :=
  .mk (some []) none [] [] none none none none none none none

/-- A 4097-character string. -/
def bigS : Str := List.replicate 4097 'a'

/-- A component whose single `extra` entry is a 4097-character string, so its
assembled text content exceeds `MAX_CHAT_LENGTH`. -/
def bigC : Component :=
  .mk none none [] [.str bigS] none none none none none none none

/-- A component with an invalid `color` value. -/
def cBadColor : Component :=
  .mk (some "hi".toList) none [] [] (some "bogus".toList)
    none none none none none none

/-- A chain of components nested through `extra`, `k + 1` levels deep. -/
def deepComp : Nat → JValue
  | 0 => .obj [("text".toList, .str "x".toList)]
  | n + 1 => .obj [("text".toList, .str "x".toList),
                   ("extra".toList, .arr [deepComp n])]

/-- The path at which validation of `deepComp 5` fails: five `extra` hops of
two segments each. -/
def deepPath : List Str :=
  ["extra".toList, "0".toList, "extra".toList, "0".toList, "extra".toList,
   "0".toList, "extra".toList, "0".toList, "extra".toList, "0".toList]

/-- A path of nine segments, exceeding `MAX_CHAT_DEPTH`. -/
def path9 : List Str := List.replicate 9 "x".toList

/-! ## Supporting lemmas -/

theorem toNat_ofNat_small (n : Nat) (h : n < 55296) :
    (Char.ofNat n).toNat = n := by
  have hv : n.isValidChar := Or.inl h
  rw [Char.ofNat, dif_pos hv]
  simp [Char.ofNatAux, Char.toNat, UInt32.toNat, BitVec.toNat_ofNatLt]

theorem char_eq_iff_toNat (c d : Char) : c = d ↔ c.toNat = d.toNat := by
  constructor
  · intro h; rw [h]
  · intro h
    have h2 := congrArg Char.ofNat h
    rwa [Char.ofNat_toNat, Char.ofNat_toNat] at h2

theorem toLowerCh_toNat (c : Char) (h : 65 ≤ c.toNat ∧ c.toNat ≤ 90) :
    (toLowerCh c).toNat = c.toNat + 32 := by
  rw [toLowerCh, Char.toLower]
  simp only [ge_iff_le]
  rw [if_pos h]
  exact toNat_ofNat_small _ (by omega)

theorem toLowerCh_eq_self (c : Char) (h : ¬(65 ≤ c.toNat ∧ c.toNat ≤ 90)) :
    toLowerCh c = c := by
  rw [toLowerCh, Char.toLower]
  simp only [ge_iff_le]
  rw [if_neg h]

theorem isHexDigitCh_toLowerCh (c : Char) :
    isHexDigitCh (toLowerCh c) = isHexDigitCh c := by
  by_cases h : 65 ≤ c.toNat ∧ c.toNat ≤ 90
  · have ht := toLowerCh_toNat c h
    rw [Bool.eq_iff_iff]
    simp only [isHexDigitCh, ht, Bool.or_eq_true, Bool.and_eq_true,
      decide_eq_true_eq]
    omega
  · rw [toLowerCh_eq_self c h]

theorem toLowerCh_eq_hash (c : Char) : (toLowerCh c = '#') = (c = '#') := by
  by_cases h : 65 ≤ c.toNat ∧ c.toNat ≤ 90
  · have ht := toLowerCh_toNat c h
    rw [eq_iff_iff, char_eq_iff_toNat, char_eq_iff_toNat]
    constructor
    · intro hx; rw [ht] at hx; simp at hx; omega
    · intro hx; simp at hx; omega
  · rw [toLowerCh_eq_self c h]

theorem all_isHexDigitCh_map_toLowerCh (l : Str) :
    (l.map toLowerCh).all isHexDigitCh = l.all isHexDigitCh := by
  induction l with
  | nil => rfl
  | cons c rest ih => simp [isHexDigitCh_toLowerCh, ih]

theorem textContentList_append (l1 l2 : List OutNode) :
    textContentList (l1 ++ l2) = textContentList l1 ++ textContentList l2 := by
  induction l1 with
  | nil => rfl
  | cons n rest ih => simp [textContentList, ih]

theorem textContentList_textPieces (l : Str) :
    textContentList (textPieces l) = l := by
  cases l with
  | nil => rfl
  | cons c rest => simp [textPieces, textContentList, textContent]

theorem textContent_aNode (url : Str) : textContent (aNode url) = url := by
  simp [aNode, textContent, textContentList]

theorem textContent_setTextContent (n : OutNode) (s : Str) :
    textContent (setTextContent n s) = s := by
  cases n with
  | text _ => rfl
  | elem t a cs => simp [setTextContent, textContent, textContentList]

theorem truncNode_textLen (n : OutNode) :
    (textContent (truncNode n)).length ≤ MAX_CHAT_LENGTH := by
  unfold truncNode
  split_ifs with h
  · rw [textContent_setTextContent, List.length_take]
    omega
  · omega

theorem truncNode_elem (t : Str) (a : Attrs) (ch : List OutNode) :
    ∃ ch', truncNode (.elem t a ch) = .elem t a ch' := by
  unfold truncNode
  split_ifs with h
  · exact ⟨_, rfl⟩
  · exact ⟨ch, rfl⟩

theorem assembleComponent_mk (tbl : Tbl) (t tr : Option Str)
    (w e : List CompArg) (col : Option Str)
    (b i u st ob : Option Bool) (hv : Option HoverEv) :
    assembleComponent tbl (.mk t tr w e col b i u st ob hv) =
      OutNode.elem spanTag
        ⟨colorClasses col ++ boolClasses b i u st ob, hexStyleColor col,
         (match hv with
          | some h => some (formatHoverEvent tbl h)
          | none => none),
         none, none, none⟩
        (contentChildren tbl (.mk t tr w e col b i u st ob hv)
          ++ renderExtra tbl e) := by
  rw [assembleComponent.eq_def]

theorem contentChildren_mk (tbl : Tbl) (t tr : Option Str)
    (w e : List CompArg) (col : Option Str)
    (b i u st ob : Option Bool) (hv : Option HoverEv) :
    contentChildren tbl (.mk t tr w e col b i u st ob hv) =
      (match t with
       | some (t0 :: ts) => linkifyText (t0 :: ts)
       | _ =>
         match tr with
         | some (k0 :: ks) =>
           formatTranslation tbl (k0 :: ks) (renderWithArgs tbl w)
         | _ => []) := by
  rw [contentChildren.eq_def]

theorem renderWithArgs_nil (tbl : Tbl) : renderWithArgs tbl [] = [] := by
  rw [renderWithArgs.eq_def]

theorem renderWithArgs_str (tbl : Tbl) (s : Str) (rest : List CompArg) :
    renderWithArgs tbl (.str s :: rest) =
      .inl s :: renderWithArgs tbl rest := by
  rw [renderWithArgs.eq_def]

theorem renderWithArgs_comp (tbl : Tbl) (c : Component) (rest : List CompArg) :
    renderWithArgs tbl (.comp c :: rest) =
      .inr (formatComponent tbl c) :: renderWithArgs tbl rest := by
  rw [renderWithArgs.eq_def, formatComponent]

theorem renderExtra_nil (tbl : Tbl) : renderExtra tbl [] = [] := by
  rw [renderExtra.eq_def]

theorem renderExtra_str (tbl : Tbl) (s : Str) (rest : List CompArg) :
    renderExtra tbl (.str s :: rest) = .text s :: renderExtra tbl rest := by
  rw [renderExtra.eq_def]

theorem renderExtra_comp (tbl : Tbl) (c : Component) (rest : List CompArg) :
    renderExtra tbl (.comp c :: rest) =
      formatComponent tbl c :: renderExtra tbl rest := by
  rw [renderExtra.eq_def, formatComponent]

theorem formatHoverEvent_showItem (tbl : Tbl) (contents : Option ItemContents)
    (va : Option Str) :
    formatHoverEvent tbl (.showItem contents va) =
      (match contents with
       | none => []
       | some ic =>
         match ic.count with
         | some n =>
           if n = 0 then ic.id
           else (toString n).toList ++ "x ".toList ++ ic.id
         | none => ic.id) := by
  rw [formatHoverEvent.eq_def]

theorem formatHoverEvent_showEntity (tbl : Tbl)
    (contents : Option EntityContents) (va : Option Str) :
    formatHoverEvent tbl (.showEntity contents va) =
      (match contents with
       | none => []
       | some ec =>
         match ec.name with
         | some (n0 :: nr) => n0 :: nr
         | _ => "Unnamed Entity".toList) := by
  rw [formatHoverEvent.eq_def]

theorem truncNode_small (n : OutNode)
    (h : (textContent n).length ≤ MAX_CHAT_LENGTH) : truncNode n = n := by
  rw [truncNode, if_neg (by omega)]

theorem assemble_textContent (tbl : Tbl) (t tr : Option Str)
    (w e : List CompArg) (col : Option Str)
    (b i u st ob : Option Bool) (hv : Option HoverEv) :
    textContent (assembleComponent tbl (.mk t tr w e col b i u st ob hv)) =
      textContentList (contentChildren tbl (.mk t tr w e col b i u st ob hv))
        ++ textContentList (renderExtra tbl e) := by
  rw [assembleComponent_mk]
  simp only [textContent]
  rw [textContentList_append]

/-! ## Claims -/

/-- Claim C1: for every component tree that has passed validation (captured by
the typed `Component` model), rendering is a total function: `formatComponent`
always returns a well-formed output node — a `<span>` element whose text
content respects the `MAX_CHAT_LENGTH` limit.  In the embedding the `try`
body never fails, so the `catch` fallback path of the source is dead code for
validated trees and no exception can escape to the caller. -/
theorem c1_render_total_wellformed (tbl : Tbl) (c : Component) :
    (∃ a ch, formatComponent tbl c = OutNode.elem spanTag a ch) ∧
      (textContent (formatComponent tbl c)).length ≤ MAX_CHAT_LENGTH := by
  constructor
  · obtain ⟨t, tr, w, e, col, b, i, u, st, ob, hv⟩ := c
    rw [formatComponent, assembleComponent_mk]
    obtain ⟨ch', hch⟩ := truncNode_elem spanTag _ _
    exact ⟨_, ch', hch⟩
  · rw [formatComponent]
    exact truncNode_textLen _

/-- Claim C3: whenever the fully assembled text content of a component exceeds
`MAX_CHAT_LENGTH` characters, the returned node carries exactly
`MAX_CHAT_LENGTH` characters of text content: truncation is applied once, on
the assembled content of the returned node. -/
theorem c3_truncation_exact (tbl : Tbl) (c : Component)
    (h : MAX_CHAT_LENGTH < (textContent (assembleComponent tbl c)).length) :
    (textContent (formatComponent tbl c)).length = MAX_CHAT_LENGTH := by
  rw [formatComponent, truncNode, if_pos h, textContent_setTextContent,
    List.length_take]
  omega

/-- Witness for C3 at a component whose assembled content has 4097
characters. -/
theorem c3_truncation_exact_witness :
    MAX_CHAT_LENGTH < (textContent (assembleComponent tblEmpty bigC)).length ∧
      (textContent (formatComponent tblEmpty bigC)).length =
        MAX_CHAT_LENGTH := by
  have hbig : textContent (assembleComponent tblEmpty bigC) = bigS := by
    rw [bigC, assemble_textContent, renderExtra_str, renderExtra_nil,
      contentChildren_mk]
    simp [textContentList, textContent]
  have h : MAX_CHAT_LENGTH <
      (textContent (assembleComponent tblEmpty bigC)).length := by
    rw [hbig, bigS, List.length_replicate]
    decide
  exact ⟨h, c3_truncation_exact tblEmpty bigC h⟩

/-- Claim C9: when truncation fires, the returned node keeps the `<span>`'s
own attributes (classes, style color, hover title) but its children are
replaced by exactly one plain text leaf holding the first `MAX_CHAT_LENGTH`
characters; all previously assembled child nodes are discarded. -/
theorem c9_truncation_replaces_children (tbl : Tbl) (c : Component)
    (h : MAX_CHAT_LENGTH < (textContent (assembleComponent tbl c)).length) :
    ∃ a ch, assembleComponent tbl c = OutNode.elem spanTag a ch ∧
      formatComponent tbl c =
        OutNode.elem spanTag a
          [.text ((textContent (assembleComponent tbl c)).take
            MAX_CHAT_LENGTH)] := by
  obtain ⟨t, tr, w, e, col, b, i, u, st, ob, hv⟩ := c
  refine ⟨_, _, assembleComponent_mk tbl t tr w e col b i u st ob hv, ?_⟩
  rw [formatComponent, truncNode, if_pos h, assembleComponent_mk]
  rfl

/-- Witness for C9 at a component whose assembled content has 4097
characters. -/
theorem c9_truncation_replaces_children_witness :
    MAX_CHAT_LENGTH < (textContent (assembleComponent tblEmpty bigC)).length ∧
      ∃ a ch, assembleComponent tblEmpty bigC = OutNode.elem spanTag a ch ∧
        formatComponent tblEmpty bigC =
          OutNode.elem spanTag a
            [.text ((textContent (assembleComponent tblEmpty bigC)).take
              MAX_CHAT_LENGTH)] := by
  have hbig : textContent (assembleComponent tblEmpty bigC) = bigS := by
    rw [bigC, assemble_textContent, renderExtra_str, renderExtra_nil,
      contentChildren_mk]
    simp [textContentList, textContent]
  have h : MAX_CHAT_LENGTH <
      (textContent (assembleComponent tblEmpty bigC)).length := by
    rw [hbig, bigS, List.length_replicate]
    decide
  exact ⟨h, c9_truncation_replaces_children tblEmpty bigC h⟩

/-- Corrected claim C2: validation fails with `Maximum chat depth exceeded` at
the first recursive call whose path exceeds `MAX_CHAT_DEPTH` segments, citing
that call's path; the check precedes every type check (the statement holds
for arbitrary values, including non-objects).  The cited path has more than
8 segments but is not always of length 9: nesting through `extra` adds two
segments per level, so a pure `extra` chain is cited with a path of length
10 (see the counterexample). -/
theorem c2_depth_check_first (v : JValue) (path : List Str)
    (h : MAX_CHAT_DEPTH < path.length) :
    assertIsComponent v path = .error ⟨msgDepth, path⟩ := by
  simp only [assertIsComponent, assertFuel]
  rw [if_pos h]

/-- Witness for C2 at a 9-segment path and a non-object value. -/
theorem c2_depth_check_first_witness :
    MAX_CHAT_DEPTH < path9.length ∧
      assertIsComponent JValue.null path9 = .error ⟨msgDepth, path9⟩ := by
  have h : MAX_CHAT_DEPTH < path9.length := by
    rw [path9]
    simp [MAX_CHAT_DEPTH]
  exact ⟨h, c2_depth_check_first JValue.null path9 h⟩

/-- Counterexample to C2 as stated: a component tree nested five levels deep
through `extra` contains a node at depth 10 (> 8), and validation fails citing
a path of length 10, not 9; the same tree one level shallower (deepest node at
depth 8) validates successfully. -/
theorem c2_counterexample :
    assertIsComponent (deepComp 5) [] = .error ⟨msgDepth, deepPath⟩ ∧
      deepPath.length = 10 ∧
      assertIsComponent (deepComp 4) [] = .ok () :=
  ⟨rfl, rfl, rfl⟩

theorem contains_eq_any (lc : Str) :
    VALID_COLORS.contains lc = VALID_COLORS.any fun p => lc = p := by
  rw [Bool.eq_iff_iff, List.contains_iff_exists_mem_beq, List.any_eq_true]
  constructor
  · rintro ⟨p, hp, hb⟩
    exact ⟨p, hp, by simpa using hb⟩
  · rintro ⟨p, hp, hb⟩
    exact ⟨p, hp, by simpa using hb⟩

theorem isHexColorStr_map_toLowerCh (s : Str) :
    isHexColorStr (s.map toLowerCh) = isHexColorStr s := by
  cases s with
  | nil => rfl
  | cons c0 cs =>
    simp only [List.map, isHexColorStr]
    rw [show decide (toLowerCh c0 = '#') = decide (c0 = '#') from
      decide_eq_decide.mpr (by rw [toLowerCh_eq_hash]),
      List.length_map, all_isHexDigitCh_map_toLowerCh]

/-- Claim C8: `isValidColor` accepts exactly the case-insensitive matches of
the 17-entry named palette and `#` followed by exactly six hexadecimal digits
(and rejects the empty string), and during rendering a present-but-invalid
color contributes nothing to the output: the component renders exactly as if
it had no color field (the warning is only logged), without aborting. -/
theorem c8_color_contract :
    (∀ s : Str, isValidColor s = isValidColorSpec s) ∧
      VALID_COLORS.length = 17 ∧
      (∀ (tbl : Tbl) (c : Component) (v : Str), c.color = some v →
        isValidColor v = false →
        formatComponent tbl c = formatComponent tbl (c.setColor none)) := by
  refine ⟨?_, rfl, ?_⟩
  · intro s
    cases s with
    | nil => rfl
    | cons c0 cs =>
      simp only [isValidColor, isValidColorSpec]
      rw [contains_eq_any]
      cases hany : VALID_COLORS.any fun p => (c0 :: cs).map toLowerCh = p with
      | true => simp [hany]
      | false =>
        simp only [hany, Bool.false_eq_true, if_false, Bool.false_or]
        rw [isHexColorStr_map_toLowerCh]
        rfl
  · intro tbl c v hcv hbad
    obtain ⟨t, tr, w, e, col, b, i, u, st, ob, hv⟩ := c
    simp only [Component.color] at hcv
    subst hcv
    simp only [Component.setColor]
    rw [formatComponent, formatComponent, assembleComponent_mk,
      assembleComponent_mk]
    have h1 : colorClasses (some v) = colorClasses none := by
      cases v with
      | nil => rfl
      | cons x xs => simp [colorClasses, hbad]
    have h2 : hexStyleColor (some v) = hexStyleColor none := by
      cases v with
      | nil => rfl
      | cons x xs => simp [hexStyleColor, hbad]
    rw [h1, h2, contentChildren_mk, contentChildren_mk]

/-- Witness for C8: a concrete invalid color is ignored by rendering, and the
characterization holds at a mixed-case palette name and a hex value. -/
theorem c8_color_contract_witness :
    isValidColor "RED".toList = isValidColorSpec "RED".toList ∧
      isValidColor "#AbC123".toList = true ∧
      isValidColor "bogus".toList = false ∧
      cBadColor.color = some "bogus".toList ∧
      formatComponent tblEmpty cBadColor =
        formatComponent tblEmpty (cBadColor.setColor none) := by
  refine ⟨c8_color_contract.1 _, by decide, by decide, rfl, ?_⟩
  exact c8_color_contract.2.2 tblEmpty cBadColor "bogus".toList rfl (by decide)

/-- Corrected claim C4: content-source selection follows JavaScript
truthiness, not mere presence.  `text` is consulted (and split through the
linkifier) exactly when it is present and non-empty; `translate` is consulted
exactly when `text` is absent or empty and `translate` is present and
non-empty; otherwise there are no content children.  In particular a present
but empty `text` does not shadow `translate` (see the counterexample). -/
theorem c4_content_priority :
    (∀ (tbl : Tbl) (t0 : Char) (ts : Str) (tr : Option Str)
       (w e : List CompArg) (col : Option Str) (b i u st ob : Option Bool)
       (hv : Option HoverEv),
       contentChildren tbl (.mk (some (t0 :: ts)) tr w e col b i u st ob hv) =
         linkifyText (t0 :: ts)) ∧
    (∀ (tbl : Tbl) (t : Option Str) (k0 : Char) (ks : Str)
       (w e : List CompArg) (col : Option Str) (b i u st ob : Option Bool)
       (hv : Option HoverEv), t = none ∨ t = some [] →
       contentChildren tbl (.mk t (some (k0 :: ks)) w e col b i u st ob hv) =
         formatTranslation tbl (k0 :: ks) (renderWithArgs tbl w)) ∧
    (∀ (tbl : Tbl) (t tr : Option Str) (w e : List CompArg) (col : Option Str)
       (b i u st ob : Option Bool) (hv : Option HoverEv),
       t = none ∨ t = some [] → tr = none ∨ tr = some [] →
       contentChildren tbl (.mk t tr w e col b i u st ob hv) = []) := by
  refine ⟨?_, ?_, ?_⟩
  · intro tbl t0 ts tr w e col b i u st ob hv
    rw [contentChildren_mk]
  · intro tbl t k0 ks w e col b i u st ob hv ht
    rcases ht with rfl | rfl <;> rw [contentChildren_mk]
  · intro tbl t tr w e col b i u st ob hv ht htr
    rcases ht with rfl | rfl <;> rcases htr with rfl | rfl <;>
      rw [contentChildren_mk]

/-- Witness for C4 at concrete components for each selection case. -/
theorem c4_content_priority_witness :
    contentChildren tblEmpty
        (.mk (some "hi".toList) (some "k".toList) [] [] none none none none
          none none none) = linkifyText "hi".toList ∧
      contentChildren tblGreet
          (.mk (some []) (some "greet".toList) [] [] none none none none
            none none none) =
        formatTranslation tblGreet "greet".toList
          (renderWithArgs tblGreet []) ∧
      contentChildren tblEmpty
          (.mk (some []) none [] [] none none none none none none none) =
        [] := by
  refine ⟨?_, ?_, ?_⟩
  · exact c4_content_priority.1 tblEmpty 'h' "i".toList (some "k".toList)
      [] [] none none none none none none none
  · exact c4_content_priority.2.1 tblGreet (some []) 'g' "reet".toList
      [] [] none none none none none none none (Or.inr rfl)
  · exact c4_content_priority.2.2 tblEmpty (some []) none
      [] [] none none none none none none none (Or.inr rfl) (Or.inl rfl)

/-- Counterexample to C4 as stated: for a component whose `text` field is
present (but empty) and whose `translate` field is present, rendering does
consult `translate` — the output differs from rendering the same component
with `translate` removed, so `translate` is not ignored whenever `text` is
present. -/
theorem c4_counterexample :
    cTextEmpty.text = some [] ∧
      formatComponent tblGreet cTextEmpty ≠
        formatComponent tblGreet cTextEmptyNoTr := by
  refine ⟨rfl, ?_⟩
  have hL : textContent (formatComponent tblGreet cTextEmpty) = "T".toList := by
    have hA : textContent (assembleComponent tblGreet cTextEmpty) =
        "T".toList := by
      rw [cTextEmpty, assemble_textContent, renderExtra_nil,
        contentChildren_mk, renderWithArgs_nil]
      rfl
    rw [formatComponent, truncNode_small _ (by rw [hA]; decide)]
    exact hA
  have hR : textContent (formatComponent tblGreet cTextEmptyNoTr) = [] := by
    have hA : textContent (assembleComponent tblGreet cTextEmptyNoTr) = [] := by
      rw [cTextEmptyNoTr, assemble_textContent, renderExtra_nil,
        contentChildren_mk]
      rfl
    rw [formatComponent, truncNode_small _ (by rw [hA]; decide)]
    exact hA
  intro h
  have h2 := congrArg textContent h
  rw [hL, hR] at h2
  exact absurd h2 (by decide)

/-- Corrected claim C5: `formatTranslation` dispatches to numbered
substitution exactly when the template contains the two-character substring
`$s` (not exactly when it contains a well-formed `%N$s` token — see the
counterexample); otherwise sequential `%s` substitution consumes arguments
left to right.  Numbered tokens select 1-based arguments, out-of-range
indices emit the literal token, and the template `%2$s %1$s` with arguments
`a`, `b` yields the content `b a`. -/
theorem c5_substitution_dispatch :
    (∀ (tbl : Tbl) (k0 : Char) (ks : Str) (t0 : Char) (ts : Str)
       (args : List RArg), tbl (k0 :: ks) = some (t0 :: ts) →
       (k0 :: ks) ≠ percentS →
       formatTranslation tbl (k0 :: ks) args =
         if hasSub dollarS (t0 :: ts) then
           numberedSubstitution (t0 :: ts) args
         else simpleSubstitution (t0 :: ts) args) ∧
      textContentList (numberedSubstitution "%2$s %1$s".toList
        [.inl "a".toList, .inl "b".toList]) = "b a".toList ∧
      numberedSubstitution "%5$s".toList [.inl "a".toList] =
        [.text "%5$s".toList] ∧
      textContentList (simpleSubstitution "%s+%s+%s".toList
        [.inl "x".toList, .inl "y".toList]) = "x+y+%s".toList := by
  refine ⟨?_, rfl, rfl, rfl⟩
  intro tbl k0 ks t0 ts args htbl hks
  simp only [formatTranslation]
  rw [if_neg hks, htbl]

/-- Witness for C5 at the table mapping `kd` to `a$s %s`. -/
theorem c5_substitution_dispatch_witness :
    tblDollar "kd".toList = some "a$s %s".toList ∧
      formatTranslation tblDollar "kd".toList [.inl "b".toList] =
        if hasSub dollarS "a$s %s".toList then
          numberedSubstitution "a$s %s".toList [.inl "b".toList]
        else simpleSubstitution "a$s %s".toList [.inl "b".toList] := by
  refine ⟨rfl, ?_⟩
  exact c5_substitution_dispatch.1 tblDollar 'k' "d".toList 'a'
    "$s %s".toList [.inl "b".toList] rfl (by decide)

/-- Counterexample to C5 as stated: the template `a$s %s` contains no `%N$s`
token, yet the source dispatches it to numbered substitution (because it
contains the substring `$s`), emitting the template literally; sequential
substitution — which the claim prescribes for this template — would have
consumed the argument and produced `a$s b`. -/
theorem c5_counterexample :
    hasNumberedToken "a$s %s".toList = false ∧
      textContentList (formatTranslation tblDollar "kd".toList
        [.inl "b".toList]) = "a$s %s".toList ∧
      textContentList (simpleSubstitution "a$s %s".toList
        [.inl "b".toList]) = "a$s b".toList ∧
      ("a$s %s".toList : Str) ≠ "a$s b".toList :=
  ⟨rfl, rfl, rfl, by decide⟩

/-- Corrected claim C7: hover formatting for `show_item` returns
`{count}x {id}` when `count` is present and truthy (non-zero) and `id` alone
otherwise; the legacy `value`-only form returns the empty string for both
actions; but for `show_entity` the fallback `Unnamed Entity` is used whenever
`name` is absent **or empty** (JavaScript truthiness), not only when it is
absent (see the counterexample). -/
theorem c7_hover_formatting :
    (∀ (tbl : Tbl) (idv : Str) (n : Int) (tg va : Option Str), n ≠ 0 →
       formatHoverEvent tbl (.showItem (some ⟨idv, some n, tg⟩) va) =
         (toString n).toList ++ "x ".toList ++ idv) ∧
    (∀ (tbl : Tbl) (idv : Str) (tg va : Option Str),
       formatHoverEvent tbl (.showItem (some ⟨idv, none, tg⟩) va) = idv) ∧
    (∀ (tbl : Tbl) (idv : Str) (tg va : Option Str),
       formatHoverEvent tbl (.showItem (some ⟨idv, some 0, tg⟩) va) = idv) ∧
    (∀ (tbl : Tbl) (va : Option Str),
       formatHoverEvent tbl (.showItem none va) = []) ∧
    (∀ (tbl : Tbl) (et : Str) (n0 : Char) (nr : Str) (va : Option Str),
       formatHoverEvent tbl (.showEntity (some ⟨et, some (n0 :: nr)⟩) va) =
         n0 :: nr) ∧
    (∀ (tbl : Tbl) (et : Str) (va : Option Str),
       formatHoverEvent tbl (.showEntity (some ⟨et, none⟩) va) =
         "Unnamed Entity".toList) ∧
    (∀ (tbl : Tbl) (va : Option Str),
       formatHoverEvent tbl (.showEntity none va) = []) ∧
    formatHoverEvent tblEmpty
        (.showItem (some ⟨"minecraft:diamond".toList, some 5, none⟩) none) =
      "5x minecraft:diamond".toList := by
  refine ⟨?_, ?_, ?_, ?_, ?_, ?_, ?_, ?_⟩
  · intro tbl idv n tg va hn
    rw [formatHoverEvent_showItem]
    simp [hn]
  · intro tbl idv tg va
    rw [formatHoverEvent_showItem]
  · intro tbl idv tg va
    rw [formatHoverEvent_showItem]
    simp
  · intro tbl va
    rw [formatHoverEvent_showItem]
  · intro tbl et n0 nr va
    rw [formatHoverEvent_showEntity]
  · intro tbl et va
    rw [formatHoverEvent_showEntity]
  · intro tbl va
    rw [formatHoverEvent_showEntity]
  · rw [formatHoverEvent_showItem]
    rfl

/-- Witness for C7 at a non-zero count. -/
theorem c7_hover_formatting_witness :
    (5 : Int) ≠ 0 ∧
      formatHoverEvent tblEmpty
          (.showItem (some ⟨"d".toList, some 5, none⟩) none) =
        (toString (5 : Int)).toList ++ "x ".toList ++ "d".toList :=
  ⟨by decide,
   c7_hover_formatting.1 tblEmpty "d".toList 5 none none (by decide)⟩

/-- Counterexample to C7 as stated: a `show_entity` hover event whose `name`
is present but empty returns the fallback `Unnamed Entity`, not the present
`name`. -/
theorem c7_counterexample :
    formatHoverEvent tblEmpty
        (.showEntity (some ⟨"minecraft:pig".toList, some []⟩) none) =
      "Unnamed Entity".toList ∧
      (some ([] : Str) ≠ (none : Option Str)) ∧
      ("Unnamed Entity".toList : Str) ≠ [] := by
  refine ⟨?_, by simp, by decide⟩
  rw [formatHoverEvent_showEntity]

theorem numTokenNode_replicate_empty (k n : Nat) (tok : Str) :
    numTokenNode (List.replicate k (.inl [])) n tok =
      numTokenNode [] n tok := by
  cases n with
  | zero => rfl
  | succ m =>
    simp only [numTokenNode]
    cases h : (List.replicate k (Sum.inl [] : RArg)).get? m with
    | none => simp [h]
    | some a =>
      have ha : a = .inl [] := List.eq_of_mem_replicate (List.get?_mem h)
      subst ha
      simp [h, argTruthy]

theorem numGo_replicate_empty (fuel : Nat) :
    ∀ (s : Str) (k : Nat),
      numGo fuel s (List.replicate k (.inl [])) = numGo fuel s [] := by
  induction fuel with
  | zero => intro s k; rfl
  | succ f ih =>
    intro s k
    simp only [numGo]
    rcases hc : numChunk s with ⟨lit, _ | ⟨n, tok, rest⟩⟩
    · rfl
    · show textPieces lit ++ numTokenNode (List.replicate k (.inl [])) n tok ::
          numGo f rest (List.replicate k (.inl [])) =
        textPieces lit ++ numTokenNode [] n tok :: numGo f rest []
      rw [numTokenNode_replicate_empty, ih]

theorem seqTokenNode_replicate_empty (k i : Nat) :
    seqTokenNode (List.replicate k (.inl [])) i = seqTokenNode [] i := by
  simp only [seqTokenNode]
  cases h : (List.replicate k (Sum.inl [] : RArg)).get? i with
  | none => simp [h]
  | some a =>
    have ha : a = .inl [] := List.eq_of_mem_replicate (List.get?_mem h)
    subst ha
    simp [h, argTruthy]

theorem seqGo_replicate_empty (fuel : Nat) :
    ∀ (s : Str) (k i : Nat),
      seqGo fuel s (List.replicate k (.inl [])) i = seqGo fuel s [] i := by
  induction fuel with
  | zero => intro s k i; rfl
  | succ f ih =>
    intro s k i
    simp only [seqGo]
    rcases hc : seqChunk s with ⟨lit, _ | rest⟩
    · rfl
    · show textPieces lit ++ seqTokenNode (List.replicate k (.inl [])) i ::
          seqGo f rest (List.replicate k (.inl [])) (i + 1) =
        textPieces lit ++ seqTokenNode [] i :: seqGo f rest [] (i + 1)
      rw [seqTokenNode_replicate_empty, ih]

/-- Claim C10: in both substitution modes an empty-string argument behaves
exactly like a missing argument: any number of empty-string arguments yields
the same output as no arguments at all, and the literal placeholder token is
emitted in its place, so the output differs from substituting the empty
string. -/
theorem c10_empty_string_args :
    (∀ (template : Str) (k : Nat),
       numberedSubstitution template (List.replicate k (.inl [])) =
         numberedSubstitution template []) ∧
      (∀ (template : Str) (k : Nat),
        simpleSubstitution template (List.replicate k (.inl [])) =
          simpleSubstitution template []) ∧
      numberedSubstitution "%1$s".toList [.inl []] =
        [.text "%1$s".toList] ∧
      simpleSubstitution "%s".toList [.inl []] = [.text "%s".toList] ∧
      textContentList (numberedSubstitution "%1$s".toList [.inl []]) =
        "%1$s".toList ∧
      ("%1$s".toList : Str) ≠ [] := by
  refine ⟨?_, ?_, rfl, rfl, rfl, by decide⟩
  · intro t k
    exact numGo_replicate_empty (t.length + 1) t k
  · intro t k
    exact seqGo_replicate_empty (t.length + 1) t k 0

theorem matchUrlAt_spec (s url rest : Str)
    (h : matchUrlAt s = some (url, rest)) :
    s = url ++ rest ∧ url ≠ [] ∧
      (httpScheme.isPrefixOf url || httpsScheme.isPrefixOf url) = true := by
  unfold matchUrlAt at h
  split_ifs at h with h1 h2
  · obtain ⟨t, ht⟩ := List.isPrefixOf_iff_prefix.mp h1
    have hdrop : s.drop httpsScheme.length = t := by
      rw [← ht, List.drop_left]
    rw [hdrop] at h
    cases htw : t.takeWhile (fun c => !isWSChar c) with
    | nil => rw [htw] at h; exact absurd h (by simp)
    | cons b bs =>
      rw [htw] at h
      simp only [Option.some.injEq, Prod.mk.injEq] at h
      obtain ⟨hu, hr⟩ := h
      subst hu hr
      refine ⟨?_, by simp, by simp [List.isPrefixOf_iff_prefix,
        List.IsPrefix, List.append_assoc]⟩
      rw [← ht]
      conv_lhs =>
        rw [← List.takeWhile_append_dropWhile (fun c => !isWSChar c) t, htw]
      simp [List.append_assoc]
  · obtain ⟨t, ht⟩ := List.isPrefixOf_iff_prefix.mp h2
    have hdrop : s.drop httpScheme.length = t := by
      rw [← ht, List.drop_left]
    rw [hdrop] at h
    cases htw : t.takeWhile (fun c => !isWSChar c) with
    | nil => rw [htw] at h; exact absurd h (by simp)
    | cons b bs =>
      rw [htw] at h
      simp only [Option.some.injEq, Prod.mk.injEq] at h
      obtain ⟨hu, hr⟩ := h
      subst hu hr
      refine ⟨?_, by simp, by simp [List.isPrefixOf_iff_prefix,
        List.IsPrefix, List.append_assoc]⟩
      rw [← ht]
      conv_lhs =>
        rw [← List.takeWhile_append_dropWhile (fun c => !isWSChar c) t, htw]
      simp [List.append_assoc]

theorem linkChunk_spec (s : Str) :
    ((linkChunk s).2 = none → (linkChunk s).1 = s) ∧
      (∀ url rest, (linkChunk s).2 = some (url, rest) →
        s = (linkChunk s).1 ++ url ++ rest ∧ url ≠ [] ∧
          (httpScheme.isPrefixOf url || httpsScheme.isPrefixOf url) =
            true) := by
  induction s with
  | nil =>
    refine ⟨fun _ => rfl, fun url rest h => ?_⟩
    simp [linkChunk] at h
  | cons c rest ih =>
    simp only [linkChunk]
    cases hm : matchUrlAt (c :: rest) with
    | some p =>
      obtain ⟨url0, rest0⟩ := p
      refine ⟨fun h => by simp at h, fun url r h => ?_⟩
      simp only [Option.some.injEq, Prod.mk.injEq] at h
      obtain ⟨rfl, rfl⟩ := h
      obtain ⟨hs, hne, hsch⟩ := matchUrlAt_spec _ _ _ hm
      exact ⟨by simpa using hs, hne, hsch⟩
    | none =>
      refine ⟨fun h => ?_, fun url r h => ?_⟩
      · have := ih.1 h
        simp [this]
      · obtain ⟨hs, hne, hsch⟩ := ih.2 url r h
        refine ⟨?_, hne, hsch⟩
        conv_lhs => rw [show rest = (linkChunk rest).1 ++ url ++ r from hs]
        rfl

theorem linkGo_cover (fuel : Nat) :
    ∀ s : Str, s.length < fuel → textContentList (linkGo fuel s) = s := by
  induction fuel with
  | zero => intro s h; omega
  | succ f ih =>
    intro s h
    simp only [linkGo]
    rcases hq : linkChunk s with ⟨lit, _ | ⟨url, rest⟩⟩
    · rw [textContentList_textPieces]
      have h1 := (linkChunk_spec s).1 (by rw [hq])
      rw [hq] at h1
      exact h1
    · obtain ⟨hs, hne, _⟩ := (linkChunk_spec s).2 url rest (by rw [hq])
      rw [hq] at hs
      have hr : rest.length < f := by
        have := congrArg List.length hs
        simp [List.length_append] at this
        cases url with
        | nil => exact absurd rfl hne
        | cons u us => simp at this; omega
      rw [textContentList_append, textContentList_textPieces]
      simp only [textContentList, textContent_aNode, ih rest hr]
      rw [hs]
      simp [aNode, textContent, textContentList, List.append_assoc]

theorem linkGo_shape (fuel : Nat) :
    ∀ (s : Str) (n : OutNode), n ∈ linkGo fuel s →
      (∃ t, n = OutNode.text t) ∨
        ∃ url, n = aNode url ∧
          (httpScheme.isPrefixOf url || httpsScheme.isPrefixOf url) =
            true := by
  induction fuel with
  | zero => intro s n h; simp [linkGo] at h
  | succ f ih =>
    intro s n h
    simp only [linkGo] at h
    rcases hq : linkChunk s with ⟨lit, _ | ⟨url, rest⟩⟩
    · rw [hq] at h
      cases lit with
      | nil => simp [textPieces] at h
      | cons x xs =>
        simp only [textPieces, List.mem_singleton] at h
        exact Or.inl ⟨_, h⟩
    · rw [hq] at h
      obtain ⟨_, _, hsch⟩ := (linkChunk_spec s).2 url rest (by rw [hq])
      rw [List.mem_append] at h
      rcases h with h | h
      · cases lit with
        | nil => simp [textPieces] at h
        | cons x xs =>
          simp only [textPieces, List.mem_singleton] at h
          exact Or.inl ⟨_, h⟩
      · rw [List.mem_cons] at h
        rcases h with rfl | h
        · exact Or.inr ⟨url, rfl, hsch⟩
        · exact ih rest n h

/-- Corrected claim C6: `linkifyText` returns fragments whose texts
concatenate to exactly the input (no gaps or overlaps); every fragment is
either plain text or a link element carrying the matched URL as both
destination and display text with the `noopener noreferrer` / `_blank`
configuration, and every link's URL starts with `http://` or `https://`; the
example input splits into the three expected fragments.  However, a link
match may begin in the middle of a non-whitespace run: a run merely
containing `http://` produces a link for its tail, so links are not exactly
the whitespace-delimited runs beginning with a scheme (see the
counterexample). -/
theorem c6_linkify_contract :
    (∀ s : Str, textContentList (linkifyText s) = s) ∧
      (∀ (s : Str) (n : OutNode), n ∈ linkifyText s →
        (∃ t, n = OutNode.text t) ∨
          ∃ url, n = aNode url ∧
            (httpScheme.isPrefixOf url || httpsScheme.isPrefixOf url) =
              true) ∧
      linkifyText "see http://example.com now".toList =
        [OutNode.text "see ".toList, aNode "http://example.com".toList,
         OutNode.text " now".toList] := by
  refine ⟨?_, ?_, rfl⟩
  · intro s
    exact linkGo_cover (s.length + 1) s (by omega)
  · intro s n h
    exact linkGo_shape (s.length + 1) s n h

/-- Witness for C6: the cover property at the example input, and the shape
property at the link fragment produced inside an unbroken non-whitespace
run. -/
theorem c6_linkify_contract_witness :
    textContentList (linkifyText "see http://example.com now".toList) =
      "see http://example.com now".toList ∧
      ((∃ t, aNode "http://a".toList = OutNode.text t) ∨
        ∃ url, aNode "http://a".toList = aNode url ∧
          (httpScheme.isPrefixOf url || httpsScheme.isPrefixOf url) =
            true) := by
  constructor
  · exact c6_linkify_contract.1 "see http://example.com now".toList
  · refine c6_linkify_contract.2.1 "xhttp://a".toList
      (aNode "http://a".toList) ?_
    show aNode "http://a".toList ∈
      [OutNode.text "x".toList, aNode "http://a".toList]
    exact List.mem_cons_of_mem _ (List.mem_cons_self _ _)

/-- Counterexample to C6 as stated: the input `xhttp://a` is a single
whitespace-free run that does not begin with a URL scheme, so under the claim
it should yield no link fragment; the source nevertheless produces a link for
the embedded `http://a`. -/
theorem c6_counterexample :
    linkifyText "xhttp://a".toList =
      [OutNode.text "x".toList, aNode "http://a".toList] ∧
      "xhttp://a".toList.all (fun c => !isWSChar c) = true ∧
      httpScheme.isPrefixOf "xhttp://a".toList = false ∧
      httpsScheme.isPrefixOf "xhttp://a".toList = false :=
  ⟨rfl, rfl, rfl, rfl⟩
